import Mathlib

/-!
Verification development for the cryptocraft-discord notifier script
(`script.py`).  The script runs one evaluation pass per invocation:
it loads a ledger of already-handled occurrence keys, fetches a JSON
event feed, filters HIGH-impact events, decides for each of the four
notification categories (daily, reminder, results, weekly) whether to
fire, hands messages to Discord webhooks, and persists the ledger.

Shallow embedding conventions:

* Time is modelled as seconds on a linear local-civil timeline
  (integer seconds; day 0 starts at instant 0 and is a Monday, matching
  the proleptic-Gregorian ordinal 1 = 0001-01-01, a Monday, used by
  Python's `datetime`).  The display timezone is modelled as a fixed
  offset (the script's `tzinfo()` falls back to UTC when the configured
  zone is unavailable); with a constant offset, instant comparisons and
  local-civil comparisons agree, so all `datetime` comparisons of the
  script become integer comparisons.
* Occurrence keys are strings in the script (`"%Y-%m-%d"`,
  `"reminder-%Y-%m-%d"`, `"results-%Y-%m-%d"`, `"%G-%V"`).  Each format
  is an injective function of the calendar day (resp. ISO week, since
  day 0 is a Monday and ISO weeks run Monday-Sunday), so keys are
  modelled by the inductive `Key` carrying the day index (resp. ISO
  week index).
* JSON event records are key-value maps with string values, modelled as
  association lists.
* `datetime.fromisoformat` (a library function, not repository code) is
  modelled for the documented subset used by the feed: an ISO-8601
  string `YYYY-MM-DD[<sep>HH[:MM[:SS]][±HH[:MM[:SS]]]]`; fractional
  seconds are not modelled.  Unparsable strings yield `none`, which the
  embedding of `parse_dt_local` turns into an exception (`Except.error`),
  mirroring the uncaught `ValueError` in the script.
* `post_discord` performs network I/O with retries; the pass model
  observes only its outcome, a per-category Boolean (`post`): `true`
  means the handoff (of every chunk for that category) succeeded,
  `false` means it ultimately raised.  Message text never influences
  the script's control flow (`chunk_messages` always returns at least
  one message), so the pass model records deliveries as
  (category, occurrence key) pairs and does not render message bodies;
  `chunk_messages` itself is embedded separately and verified as the
  digest chunker.
-/

namespace CryptoCraft

/-- Source `DISCORD_MAX_LEN = 2000` from the script. -/
def DISCORD_MAX_LEN : Nat := 2000

/-- Source `DAILY_AFTER_MINUTES = 1`. -/
def DAILY_AFTER_MINUTES : Int := 1

/-- Source `REMINDER_START_HOUR = 10`. -/
def REMINDER_START_HOUR : Int := 10

/-- Source `REMINDER_START_MINUTE = 0`. -/
def REMINDER_START_MINUTE : Int := 0

/-- Source `REMINDER_WINDOW_MINUTES = 14 * 60`. -/
def REMINDER_WINDOW_MINUTES : Int := 14 * 60

/-- Source `RESULTS_START_HOUR = 23`. -/
def RESULTS_START_HOUR : Int := 23

/-- Source `RESULTS_START_MINUTE = 0`. -/
def RESULTS_START_MINUTE : Int := 0

/-- Source `RESULTS_WINDOW_MINUTES = 10 * 60`. -/
def RESULTS_WINDOW_MINUTES : Int := 10 * 60

/-- Source `WEEKLY_SUNDAY_START_HOUR = 18`. -/
def WEEKLY_SUNDAY_START_HOUR : Int := 18

/-- Source `WEEKLY_SUNDAY_START_MINUTE = 0`. -/
def WEEKLY_SUNDAY_START_MINUTE : Int := 0

/-- Source `WEEKLY_SUNDAY_WINDOW_MINUTES = 6 * 60`. -/
def WEEKLY_SUNDAY_WINDOW_MINUTES : Int := 6 * 60

/-- Source `CALENDAR_URL` constant of the script. -/
def CALENDAR_URL : String := "https://www.cryptocraft.com/calendar"

/-- Source `CALENDAR_LINK` constant of the script. -/
def CALENDAR_LINK : String := "[Crypto Craft](" ++ CALENDAR_URL ++ ")"

/-- Source `CALENDAR_LABEL` constant of the script. -/
def CALENDAR_LABEL : String := "Calendar"

/-- Offset (seconds) of the display timezone from UTC.  `tzinfo()`
returns UTC whenever the configured name is `UTC`, `zoneinfo` is
unavailable, or the name is invalid; the model fixes that constant
offset (0). -/
def TZ_OFFSET : Int := 0

/-- Day index of a local-civil instant (days since instant 0, which is
a Monday): the calendar date `now.date()` of `datetime`, as an integer.
`Int` division is floor division for the positive divisor, matching
Python's civil truncation `now.replace(hour=0, ...)`. -/
def dayIndex (t : Int) : Int := t / 86400

/-- Source `today_start = now.replace(hour=0, minute=0, second=0, microsecond=0)`. -/
def dayStart (t : Int) : Int := 86400 * dayIndex t

/-- Source `now.hour`. -/
def hourOf (t : Int) : Int := (t % 86400) / 3600

/-- Source `now.weekday()`: Monday = 0 .. Sunday = 6.  Day 0 of the model is a
Monday, so this is the day index modulo 7. -/
def weekdayOf (t : Int) : Int := dayIndex t % 7

/-- ISO-week index of an instant: ISO weeks run Monday-Sunday and day 0
is a Monday, so this is the day index divided by 7.  Two instants have
the same `strftime("%G-%V")` string iff they have the same ISO week
index. -/
def weekIndex (t : Int) : Int := dayIndex t / 7

/-- Occurrence keys of the ledger.  The script uses the strings
`"%Y-%m-%d"`, `"reminder-%Y-%m-%d"`, `"results-%Y-%m-%d"` and
`"%G-%V"`; every one of these formats is injective in the calendar day
(resp. ISO week), so the model carries the day index (resp. ISO-week
index) directly. -/
inductive Key where
  | date (day : Int)
  | reminder (day : Int)
  | results (day : Int)
  | week (w : Int)
deriving DecidableEq, Repr

/-- The four notification categories. -/
inductive Cat where
  | daily
  | reminder
  | results
  | weekly
deriving DecidableEq, Repr

/-- The in-memory ledger: the four key sets of `state.json`
(`reminded`, `daily_sent`, `results_sent`, `weekly_sent`).  Python
holds them as `set`s rebuilt from lists; the model keeps lists and
reasons up to membership. -/
structure State where
  reminded : List Key
  daily_sent : List Key
  results_sent : List Key
  weekly_sent : List Key
deriving DecidableEq, Repr

/-- Content of the persisted state file as seen by `load_state`:
either unreadable (missing file or `json.load` failure) or a JSON
object in which each of the four entries may be absent. -/
inductive StateFile where
  | unreadable
  | obj (reminded daily_sent results_sent weekly_sent : Option (List Key))
deriving DecidableEq, Repr

/-- Source `load_state()`: a readable object gets each missing entry defaulted
to the empty list (`state.setdefault(..., [])`); any failure yields the
all-empty state. -/
def load_state : StateFile → State
  | .unreadable => ⟨[], [], [], []⟩
  | .obj r d rs w => ⟨r.getD [], d.getD [], rs.getD [], w.getD []⟩

/-- Source `save_state(state)`: writes a JSON object holding all four lists. -/
def save_state (st : State) : StateFile :=
  .obj (some st.reminded) (some st.daily_sent) (some st.results_sent)
    (some st.weekly_sent)

/-- Python `set.add`: membership-preserving insert. -/
def addKey (l : List Key) (k : Key) : List Key :=
  if k ∈ l then l else k :: l

/-- A raw JSON event record: an association list of string fields. -/
def RawEvent : Type := List (String × String)

instance : DecidableEq RawEvent :=
  inferInstanceAs (DecidableEq (List (String × String)))

instance : Membership RawEvent (List RawEvent) :=
  inferInstanceAs (Membership (List (String × String)) (List (List (String × String))))

/-- Python `ev.get(k)`: first binding of the field, if any. -/
def getField (ev : RawEvent) (k : String) : Option String :=
  (List.find? (fun p => p.1 == k) ev).map (fun p => p.2)

/-- Python `a or b` on optional strings: `a` unless it is absent or
empty. -/
def pyOr (a b : Option String) : Option String :=
  match a with
  | some s => if s.isEmpty then b else some s
  | none => b

/-- Python `str.upper()` on ASCII field values, modelled as a
per-character uppercase map. -/
def pyUpper (s : String) : String := String.mk (s.data.map Char.toUpper)

/-- Source `normalize_impact(ev) = str(ev.get("impact", "")).upper()`. -/
def normalize_impact (ev : RawEvent) : String :=
  pyUpper ((getField ev "impact").getD "")

/-- Title as extracted in the results block:
`ev.get("title", "Onbekend event")`. -/
def titleOf (ev : RawEvent) : String :=
  (getField ev "title").getD "Onbekend event"

/-- Actual figure as extracted in the results block:
`ev.get("actual", "–")`. -/
def actualOf (ev : RawEvent) : String :=
  (getField ev "actual").getD "–"

/-- Gregorian leap year. -/
def isLeap (y : Nat) : Bool :=
  (y % 4 == 0 && y % 100 != 0) || (y % 400 == 0)

/-- Length of month `m` of year `y`. -/
def daysInMonth (y m : Nat) : Nat :=
  if m = 2 then (if isLeap y then 29 else 28)
  else if m = 4 ∨ m = 6 ∨ m = 9 ∨ m = 11 then 30
  else 31

/-- Days in months `1..m-1` of year `y`. -/
def daysBeforeMonth (y : Nat) : Nat → Nat
  | 0 => 0
  | m + 1 => if m = 0 then 0 else daysBeforeMonth y m + daysInMonth y m

/-- Proleptic-Gregorian ordinal of a civil date, as in Python's
`date.toordinal()`: 0001-01-01 has ordinal 1. -/
def toOrdinal (y m d : Nat) : Nat :=
  ((y - 1) * 365 + (y - 1) / 4 - (y - 1) / 100 + (y - 1) / 400)
    + daysBeforeMonth y m + d

/-- Value of a decimal digit character. -/
def digitVal (c : Char) : Option Nat :=
  if c.isDigit then some (c.toNat - 48) else none

/-- Parse exactly two decimal digits. -/
def parse2 : List Char → Option (Nat × List Char)
  | c1 :: c2 :: rest =>
    match digitVal c1, digitVal c2 with
    | some a, some b => some (10 * a + b, rest)
    | _, _ => none
  | _ => none

/-- Parse exactly four decimal digits. -/
def parse4 : List Char → Option (Nat × List Char)
  | c1 :: c2 :: c3 :: c4 :: rest =>
    match digitVal c1, digitVal c2, digitVal c3, digitVal c4 with
    | some a, some b, some c, some d =>
      some (1000 * a + 100 * b + 10 * c + d, rest)
    | _, _, _, _ => none
  | _ => none

/-- Parse an ISO time-of-day `HH[:MM[:SS]]`, returning seconds since
midnight. -/
def parseTime (cs : List Char) : Option (Nat × List Char) := do
  let (h, r1) ← parse2 cs
  if h ≥ 24 then none else
  match r1 with
  | ':' :: r2 => do
    let (m, r3) ← parse2 r2
    if m ≥ 60 then none else
    match r3 with
    | ':' :: r4 => do
      let (s, r5) ← parse2 r4
      if s ≥ 60 then none else pure (3600 * h + 60 * m + s, r5)
    | _ => pure (3600 * h + 60 * m, r3)
  | _ => pure (3600 * h, r1)

/-- Parse a UTC-offset body `HH[:MM[:SS]]` that must consume the rest
of the string, returning seconds. -/
def parseOffsetTail (cs : List Char) : Option Int := do
  let (t, rest) ← parseTime cs
  if rest.isEmpty then pure (t : Int) else none

/-- Model of `datetime.fromisoformat` on the subset
`YYYY-MM-DD[<sep>HH[:MM[:SS]][±HH[:MM[:SS]]]]` (fractional seconds not
modelled).  Returns the naive seconds-since-epoch reading of the civil
fields together with the explicit UTC offset if one was given; `none`
when the string does not parse (Python raises `ValueError`). -/
def fromisoformat (s : String) : Option (Nat × Option Int) := do
  let cs := s.data
  let (y, r1) ← parse4 cs
  let r2 ← match r1 with | '-' :: r => some r | _ => none
  let (mo, r3) ← parse2 r2
  let r4 ← match r3 with | '-' :: r => some r | _ => none
  let (d, r5) ← parse2 r4
  if y = 0 ∨ mo = 0 ∨ mo > 12 ∨ d = 0 ∨ d > daysInMonth y mo then none else
  let base := (toOrdinal y mo d - 1) * 86400
  match r5 with
  | [] => pure (base, none)
  | _sep :: r6 => do
    let (t, r7) ← parseTime r6
    match r7 with
    | [] => pure (base + t, none)
    | '+' :: r8 => do
      let off ← parseOffsetTail r8
      pure (base + t, some off)
    | '-' :: r8 => do
      let off ← parseOffsetTail r8
      pure (base + t, some (-off))
    | _ => none

/-- The timestamp string the script selects:
`ev.get("datetime") or ev.get("date")`. -/
def dtStrOf (ev : RawEvent) : Option String :=
  pyOr (getField ev "datetime") (getField ev "date")

/-- Source `parse_dt_local(ev)`.  A missing or empty timestamp string returns
`None` (`.ok none`); a non-empty string that fails `fromisoformat`
raises `ValueError` (`.error`); otherwise the naive value is read as
UTC when no offset is present (`dt.replace(tzinfo=timezone.utc)`) and
converted to the display timezone (`dt.astimezone(TZ)`). -/
def parse_dt_local (ev : RawEvent) : Except String (Option Int) :=
  match dtStrOf ev with
  | none => .ok none
  | some s =>
    if s.isEmpty then .ok none
    else
      match fromisoformat s with
      | none => .error s
      | some (naive, off) => .ok (some ((naive : Int) - off.getD 0 + TZ_OFFSET))

/-- The filtering loop shared by the digest builders (lines 326-332,
406-411 and 459-464 of the script): keep events whose impact
normalizes to HIGH and whose parsed local timestamp lies in
`[ts, te)`, in feed order; a record with a missing timestamp is
skipped; an unparsable timestamp propagates the `ValueError`. -/
def collectHigh (ts te : Int) : List RawEvent → Except String (List (RawEvent × Int))
  | [] => .ok []
  | ev :: rest =>
    if normalize_impact ev ≠ "HIGH" then collectHigh ts te rest
    else
      match parse_dt_local ev with
      | .error e => .error e
      | .ok none => collectHigh ts te rest
      | .ok (some dt) =>
        if ts ≤ dt ∧ dt < te then
          (collectHigh ts te rest).map (fun l => (ev, dt) :: l)
        else collectHigh ts te rest

/-- One insertion step of a stable ascending sort by the timestamp
component: the new element goes in front of the first element whose
timestamp is not smaller. -/
def insertByDt (x : RawEvent × Int) : List (RawEvent × Int) → List (RawEvent × Int)
  | [] => [x]
  | y :: ys => if x.2 ≤ y.2 then x :: y :: ys else y :: insertByDt x ys

/-- Model of `list.sort(key=lambda x: x[1])`: Python's sort is stable
and ascending in the key; any stable ascending-by-key sort is an exact
model, here insertion sort. -/
def sortByDt : List (RawEvent × Int) → List (RawEvent × Int)
  | [] => []
  | x :: xs => insertByDt x (sortByDt xs)

/-- Source `todays_high` (lines 325-332): HIGH-impact events of the current
local day, sorted ascending by timestamp. -/
def todaysHigh (now : Int) (events : List RawEvent) :
    Except String (List (RawEvent × Int)) :=
  (collectHigh (dayStart now) (dayStart now + 86400) events).map sortByDt

/-- Source `upcoming_high` of the weekly digest (lines 453-465): HIGH-impact
events of the next full week, starting the following calendar day,
sorted ascending by timestamp. -/
def upcomingHigh (now : Int) (events : List RawEvent) :
    Except String (List (RawEvent × Int)) :=
  (collectHigh (dayStart now + 86400) (dayStart now + 86400 + 7 * 86400) events).map
    sortByDt

/-- The footer appended to every chunked message. -/
def chunkFooter : String := "\n\n🔗 " ++ CALENDAR_LABEL ++ ": " ++ CALENDAR_LINK

/-- Loop body of `chunk_messages`: `current` is the open message,
already beginning with the header. -/
def chunkGo (header : String) (current : String) :
    List String → List String
  | [] => [current ++ chunkFooter]
  | b :: bs =>
    if DISCORD_MAX_LEN < (current ++ "\n\n" ++ b ++ chunkFooter).length then
      (current ++ chunkFooter) :: chunkGo header (header ++ "\n\n" ++ b) bs
    else
      chunkGo header (current ++ "\n\n" ++ b) bs

/-- Source `chunk_messages(blocks, header)` (lines 234-245): greedy chunking;
a block that would push the open message (plus footer) past
`DISCORD_MAX_LEN` closes it and opens a fresh one with the header and
that block; every emitted message ends with the footer. -/
def chunk_messages (blocks : List String) (header : String) : List String :=
  chunkGo header header blocks

/-- Fire condition of the daily digest (line 343):
the date key is unsent and `now >= today_start + DAILY_AFTER_MINUTES`.
There is no upper bound in the code; the key derivation bounds the
occurrence to the current day. -/
def dailyFires (now : Int) (st : State) : Bool :=
  decide (Key.date (dayIndex now) ∉ st.daily_sent) &&
    decide (dayStart now + 60 * DAILY_AFTER_MINUTES ≤ now)

/-- Source `reminder_start` (line 358). -/
def reminderStart (now : Int) : Int :=
  dayStart now + 3600 * REMINDER_START_HOUR + 60 * REMINDER_START_MINUTE

/-- Fire condition of the reminder (line 365). -/
def reminderFires (now : Int) (st : State) : Bool :=
  decide (Key.reminder (dayIndex now) ∉ st.reminded) &&
    decide (reminderStart now ≤ now) &&
    decide (now < reminderStart now + 60 * REMINDER_WINDOW_MINUTES)

/-- Day index the results category resolves to (lines 383-397): the
previous day when `now.hour < 9`, else the current day. -/
def resultsKeyIndex (now : Int) : Int :=
  if hourOf now < 9 then dayIndex now - 1 else dayIndex now

/-- Source `results_start` (lines 389/396). -/
def resultsStart (now : Int) : Int :=
  86400 * resultsKeyIndex now + 3600 * RESULTS_START_HOUR
    + 60 * RESULTS_START_MINUTE

/-- Source `results_day_start` (lines 387/394): start of the day whose events
the results message reports. -/
def resultsDayStart (now : Int) : Int := 86400 * resultsKeyIndex now

/-- The event list rendered by the results message (lines 406-411):
HIGH-impact events of the resolved day, feed order. -/
def resultsEvents (now : Int) (events : List RawEvent) :
    Except String (List (RawEvent × Int)) :=
  collectHigh (resultsDayStart now) (resultsDayStart now + 86400) events

/-- Fire condition of the results message (line 403). -/
def resultsFires (now : Int) (st : State) : Bool :=
  decide (Key.results (resultsKeyIndex now) ∉ st.results_sent) &&
    decide (resultsStart now ≤ now) &&
    decide (now < resultsStart now + 60 * RESULTS_WINDOW_MINUTES)

/-- Source `weekly_start` (line 445). -/
def weeklyStart (now : Int) : Int :=
  dayStart now + 3600 * WEEKLY_SUNDAY_START_HOUR
    + 60 * WEEKLY_SUNDAY_START_MINUTE

/-- Fire condition of the weekly digest (line 452): unsent ISO-week
key, Sunday, and inside the evening window. -/
def weeklyFires (now : Int) (st : State) : Bool :=
  decide (Key.week (weekIndex now) ∉ st.weekly_sent) &&
    decide (weekdayOf now = 6) &&
    decide (weeklyStart now ≤ now) &&
    decide (now < weeklyStart now + 60 * WEEKLY_SUNDAY_WINDOW_MINUTES)

/-- Pass-fatal failures: an uncaught `ValueError` from timestamp
normalization, or an uncaught `RuntimeError` from `post_discord`
(carrying the category whose handoff failed). -/
inductive PassError where
  | malformedTimestamp (s : String)
  | deliveryFailed (c : Cat)
deriving DecidableEq, Repr

instance {ε α : Type} [DecidableEq ε] [DecidableEq α] : DecidableEq (Except ε α) := fun x y =>
  match x, y with
  | .error a, .error b =>
    if h : a = b then .isTrue (by rw [h])
    else .isFalse (by intro hc; injection hc; exact h (by assumption))
  | .ok a, .ok b =>
    if h : a = b then .isTrue (by rw [h])
    else .isFalse (by intro hc; injection hc; exact h (by assumption))
  | .error _, .ok _ => .isFalse (by intro hc; exact Except.noConfusion hc)
  | .ok _, .error _ => .isFalse (by intro hc; exact Except.noConfusion hc)

/-- Outcome of one pass of `main()`: the (category, key) handoffs that
reached the Notifier, in order, and either the final in-memory state
passed to `save_state` or the uncaught exception that aborted the
pass. -/
structure PassOutput where
  deliveries : List (Cat × Key)
  result : Except PassError State
deriving DecidableEq, Repr

/-- One pass of `main()` (lines 311-499).  `post c` is the outcome of
the `post_discord` handoffs for category `c` (`false`: raised after
retries).  The pass filters today's HIGH events (which raises on the
first HIGH record with an unparsable timestamp), then evaluates the
four categories in source order - daily, reminder, results, weekly -
marking a key only after a successful handoff; an uncaught exception
aborts the pass at that point, so `save_state` is never reached and
nothing is persisted.  The results-block and weekly-block loops
re-parse only HIGH records already parsed by the `todays_high` filter,
so they cannot raise once that filter succeeded. -/
def runPass (now : Int) (events : List RawEvent) (file : StateFile)
    (post : Cat → Bool) : PassOutput :=
  let st := load_state file
  match collectHigh (dayStart now) (dayStart now + 86400) events with
  | .error e => { deliveries := [], result := .error (.malformedTimestamp e) }
  | .ok _ =>
    let dFire := dailyFires now st
    if dFire && !post Cat.daily then
      { deliveries := [], result := .error (.deliveryFailed Cat.daily) }
    else
      let acc1 : List (Cat × Key) :=
        if dFire then [(Cat.daily, Key.date (dayIndex now))] else []
      let daily1 :=
        if dFire then addKey st.daily_sent (Key.date (dayIndex now))
        else st.daily_sent
      let rFire := reminderFires now st
      if rFire && !post Cat.reminder then
        { deliveries := acc1, result := .error (.deliveryFailed Cat.reminder) }
      else
        let acc2 :=
          acc1 ++ (if rFire then [(Cat.reminder, Key.reminder (dayIndex now))] else [])
        let reminded1 :=
          if rFire then addKey st.reminded (Key.reminder (dayIndex now))
          else st.reminded
        let resFire := resultsFires now st
        if resFire && !post Cat.results then
          { deliveries := acc2, result := .error (.deliveryFailed Cat.results) }
        else
          let acc3 :=
            acc2 ++
              (if resFire then [(Cat.results, Key.results (resultsKeyIndex now))] else [])
          let results1 :=
            if resFire then addKey st.results_sent (Key.results (resultsKeyIndex now))
            else st.results_sent
          let wFire := weeklyFires now st
          if wFire && !post Cat.weekly then
            { deliveries := acc3, result := .error (.deliveryFailed Cat.weekly) }
          else
            let acc4 :=
              acc3 ++ (if wFire then [(Cat.weekly, Key.week (weekIndex now))] else [])
            let weekly1 :=
              if wFire then addKey st.weekly_sent (Key.week (weekIndex now))
              else st.weekly_sent
            { deliveries := acc4,
              result := .ok
                { reminded := reminded1, daily_sent := daily1,
                  results_sent := results1, weekly_sent := weekly1 } }

/-! ## Specification-side vocabulary

The following definitions express the spec's window vocabulary
(anchor, tolerance, half-open window, occurrence key) with the concrete
trigger constants of the script; the theorems below relate the pass
model to them. -/

/-- Occurrence key of a category for occurrence index `occ` (day index
for daily/reminder/results, ISO-week index for weekly). -/
def keyOf : Cat → Int → Key
  | .daily, d => .date d
  | .reminder, d => .reminder d
  | .results, d => .results d
  | .weekly, w => .week w

/-- Anchor instant of an occurrence, per the spec's trigger rules with
the script's constants.  The weekly occurrence of ISO week `w` is
anchored on the Sunday of that week (day `7 * w + 6`). -/
def anchorOf : Cat → Int → Int
  | .daily, d => 86400 * d + 60 * DAILY_AFTER_MINUTES
  | .reminder, d =>
    86400 * d + 3600 * REMINDER_START_HOUR + 60 * REMINDER_START_MINUTE
  | .results, d =>
    86400 * d + 3600 * RESULTS_START_HOUR + 60 * RESULTS_START_MINUTE
  | .weekly, w =>
    86400 * (7 * w + 6) + 3600 * WEEKLY_SUNDAY_START_HOUR
      + 60 * WEEKLY_SUNDAY_START_MINUTE

/-- Tolerance of each category, in seconds.  The script gives the
daily digest no explicit upper bound, so its effective tolerance runs
from the anchor (00:01) to the end of the day. -/
def toleranceSecs : Cat → Int
  | .daily => 86400 - 60 * DAILY_AFTER_MINUTES
  | .reminder => 60 * REMINDER_WINDOW_MINUTES
  | .results => 60 * RESULTS_WINDOW_MINUTES
  | .weekly => 60 * WEEKLY_SUNDAY_WINDOW_MINUTES

/-- The half-open delivery window `[anchor, anchor + tolerance)`. -/
def inWindow (c : Cat) (occ now : Int) : Prop :=
  anchorOf c occ ≤ now ∧ now < anchorOf c occ + toleranceSecs c

instance (c : Cat) (occ now : Int) : Decidable (inWindow c occ now) :=
  inferInstanceAs (Decidable (_ ∧ _))

/-- The ledger partition consulted by each category. -/
def ledgerOf (st : State) : Cat → List Key
  | .daily => st.daily_sent
  | .reminder => st.reminded
  | .results => st.results_sent
  | .weekly => st.weekly_sent

/-- The fire condition the script evaluates for each category. -/
def catFires (c : Cat) (now : Int) (st : State) : Bool :=
  match c with
  | .daily => dailyFires now st
  | .reminder => reminderFires now st
  | .results => resultsFires now st
  | .weekly => weeklyFires now st

/-- The occurrence index a pass at `now` resolves each category to. -/
def catOccIndex (c : Cat) (now : Int) : Int :=
  match c with
  | .daily => dayIndex now
  | .reminder => dayIndex now
  | .results => resultsKeyIndex now
  | .weekly => weekIndex now

/-- The occurrence key a pass at `now` would deliver for a category. -/
def catKey (c : Cat) (now : Int) : Key := keyOf c (catOccIndex c now)

/-- Modelled from the spec's words (alias fallback chains): the first
present non-empty value among the listed field names. -/
def firstNonEmpty : List String → RawEvent → Option String
  | [], _ => none
  | n :: ns, ev =>
    match getField ev n with
    | some s => if s.isEmpty then firstNonEmpty ns ev else some s
    | none => firstNonEmpty ns ev

/-- Modelled from the spec's words: timestamp normalization driven by
the alias chain `datetime|date` with first-present-non-empty selection,
otherwise identical to `parse_dt_local`. -/
def parseDtChain (ev : RawEvent) : Except String (Option Int) :=
  match firstNonEmpty ["datetime", "date"] ev with
  | none => .ok none
  | some s =>
    match fromisoformat s with
    | none => .error s
    | some (naive, off) => .ok (some ((naive : Int) - off.getD 0 + TZ_OFFSET))

/-- The (category, key) handoffs of a pass in which no abort happens,
in source order. -/
def passParts (now : Int) (st : State) : List (Cat × Key) :=
  (if dailyFires now st then [(Cat.daily, Key.date (dayIndex now))] else [])
    ++ (if reminderFires now st then [(Cat.reminder, Key.reminder (dayIndex now))] else [])
    ++ (if resultsFires now st then [(Cat.results, Key.results (resultsKeyIndex now))] else [])
    ++ (if weeklyFires now st then [(Cat.weekly, Key.week (weekIndex now))] else [])

/-- The in-memory state at the end of a non-aborted pass, as passed to
`save_state`. -/
def passFinal (now : Int) (st : State) : State :=
  { reminded :=
      if reminderFires now st then addKey st.reminded (Key.reminder (dayIndex now))
      else st.reminded,
    daily_sent :=
      if dailyFires now st then addKey st.daily_sent (Key.date (dayIndex now))
      else st.daily_sent,
    results_sent :=
      if resultsFires now st then addKey st.results_sent (Key.results (resultsKeyIndex now))
      else st.results_sent,
    weekly_sent :=
      if weeklyFires now st then addKey st.weekly_sent (Key.week (weekIndex now))
      else st.weekly_sent }

/-- Rendering of a group of blocks inside one chunked message: each
block is preceded by the blank-line separator. -/
def joinBlocks : List String → String
  | [] => ""
  | b :: bs => "\n\n" ++ b ++ joinBlocks bs

/-- A single text block longer than `DISCORD_MAX_LEN` (2001 copies of
one character), used to exhibit chunking behaviour on oversized
blocks. -/
def bigBlock : String := String.mk (List.replicate 2001 'a')

/-- Fixture: a HIGH-impact event titled "B" at 2024-03-01 10:00. -/
def evTieB : RawEvent :=
  [("title", "B"), ("impact", "HIGH"), ("datetime", "2024-03-01T10:00:00")]

/-- Fixture: a HIGH-impact event titled "A" at the same instant as
`evTieB`. -/
def evTieA : RawEvent :=
  [("title", "A"), ("impact", "HIGH"), ("datetime", "2024-03-01T10:00:00")]

/-! ## Helper lemmas -/

theorem mem_addKey {l : List Key} {k x : Key} : x ∈ addKey l k ↔ x = k ∨ x ∈ l := by
  unfold addKey
  split
  · constructor
    · intro h; exact Or.inr h
    · rintro (rfl | h) <;> [assumption; assumption]
  · simp [List.mem_cons]

theorem subset_addKey (l : List Key) (k : Key) : l ⊆ addKey l k := by
  intro x hx; exact mem_addKey.mpr (Or.inr hx)

theorem self_mem_addKey (l : List Key) (k : Key) : k ∈ addKey l k :=
  mem_addKey.mpr (Or.inl rfl)

theorem keyOf_inj (c : Cat) {a b : Int} (h : keyOf c a = keyOf c b) : a = b := by
  cases c <;> simpa [keyOf] using h

/-- Each category fires exactly when `now` is inside the window of the
occurrence the pass resolves to and that occurrence's key is unsent. -/
theorem catFires_iff (c : Cat) (now : Int) (st : State) :
    catFires c now st = true ↔
      (inWindow c (catOccIndex c now) now ∧ catKey c now ∉ ledgerOf st c) := by
  cases c
  · simp only [catFires, dailyFires, catOccIndex, catKey, keyOf, inWindow, anchorOf,
      toleranceSecs, ledgerOf, dayStart, dayIndex, DAILY_AFTER_MINUTES,
      Bool.and_eq_true, decide_eq_true_eq]
    constructor
    · rintro ⟨h1, h2⟩; exact ⟨⟨by omega, by omega⟩, h1⟩
    · rintro ⟨⟨h1, h2⟩, h3⟩; exact ⟨h3, by omega⟩
  · simp only [catFires, reminderFires, catOccIndex, catKey, keyOf, inWindow, anchorOf,
      toleranceSecs, ledgerOf, reminderStart, dayStart, dayIndex,
      REMINDER_START_HOUR, REMINDER_START_MINUTE, REMINDER_WINDOW_MINUTES,
      Bool.and_eq_true, decide_eq_true_eq]
    constructor
    · rintro ⟨⟨h1, h2⟩, h3⟩; exact ⟨⟨by omega, by omega⟩, h1⟩
    · rintro ⟨⟨h1, h2⟩, h3⟩; exact ⟨⟨h3, by omega⟩, by omega⟩
  · simp only [catFires, resultsFires, catOccIndex, catKey, keyOf, inWindow, anchorOf,
      toleranceSecs, ledgerOf, resultsStart, RESULTS_START_HOUR, RESULTS_START_MINUTE,
      RESULTS_WINDOW_MINUTES, Bool.and_eq_true, decide_eq_true_eq]
    constructor
    · rintro ⟨⟨h1, h2⟩, h3⟩; exact ⟨⟨by omega, by omega⟩, h1⟩
    · rintro ⟨⟨h1, h2⟩, h3⟩; exact ⟨⟨h3, by omega⟩, by omega⟩
  · simp only [catFires, weeklyFires, catOccIndex, catKey, keyOf, inWindow, anchorOf,
      toleranceSecs, ledgerOf, weeklyStart, dayStart, weekdayOf, weekIndex, dayIndex,
      WEEKLY_SUNDAY_START_HOUR, WEEKLY_SUNDAY_START_MINUTE, WEEKLY_SUNDAY_WINDOW_MINUTES,
      Bool.and_eq_true, decide_eq_true_eq]
    constructor
    · rintro ⟨⟨⟨h1, h2⟩, h3⟩, h4⟩; exact ⟨⟨by omega, by omega⟩, h1⟩
    · rintro ⟨⟨h1, h2⟩, h3⟩; exact ⟨⟨⟨h3, by omega⟩, by omega⟩, by omega⟩

/-- The occurrence whose window contains `now` is the occurrence the
pass resolves to. -/
theorem occIndex_of_inWindow {c : Cat} {occ now : Int} (h : inWindow c occ now) :
    catOccIndex c now = occ := by
  obtain ⟨h1, h2⟩ := h
  cases c
  · simp only [anchorOf, toleranceSecs, DAILY_AFTER_MINUTES] at h1 h2
    simp only [catOccIndex, dayIndex]; omega
  · simp only [anchorOf, toleranceSecs, REMINDER_START_HOUR, REMINDER_START_MINUTE,
      REMINDER_WINDOW_MINUTES] at h1 h2
    simp only [catOccIndex, dayIndex]; omega
  · simp only [anchorOf, toleranceSecs, RESULTS_START_HOUR, RESULTS_START_MINUTE,
      RESULTS_WINDOW_MINUTES] at h1 h2
    simp only [catOccIndex, resultsKeyIndex, hourOf, dayIndex]
    split <;> omega
  · simp only [anchorOf, toleranceSecs, WEEKLY_SUNDAY_START_HOUR,
      WEEKLY_SUNDAY_START_MINUTE, WEEKLY_SUNDAY_WINDOW_MINUTES] at h1 h2
    simp only [catOccIndex, weekIndex, dayIndex]; omega

theorem mem_fireOpt {b : Bool} {c0 : Cat} {k0 : Key} {c : Cat} {k : Key}
    (h : (c, k) ∈ (if b then [(c0, k0)] else ([] : List (Cat × Key)))) :
    b = true ∧ c = c0 ∧ k = k0 := by
  cases b
  · simp at h
  · simp only [if_true] at h
    simp only [List.mem_singleton, Prod.mk.injEq] at h
    exact ⟨rfl, h.1, h.2⟩

/-- A pass that reaches `save_state` produced exactly the fired
handoffs and the fired key insertions. -/
theorem runPass_ok_spec {now : Int} {events : List RawEvent} {file : StateFile}
    {post : Cat → Bool} {st : State}
    (h : (runPass now events file post).result = .ok st) :
    st = passFinal now (load_state file) ∧
    (runPass now events file post).deliveries = passParts now (load_state file) := by
  rcases hc : collectHigh (dayStart now) (dayStart now + 86400) events with e | l <;>
    simp only [runPass, hc] at h ⊢
  · simp at h
  · by_cases h1 : (dailyFires now (load_state file) && !post Cat.daily) = true
    · rw [if_pos h1] at h; simp at h
    · rw [if_neg h1] at h ⊢
      by_cases h2 : (reminderFires now (load_state file) && !post Cat.reminder) = true
      · rw [if_pos h2] at h; simp at h
      · rw [if_neg h2] at h ⊢
        by_cases h3 : (resultsFires now (load_state file) && !post Cat.results) = true
        · rw [if_pos h3] at h; simp at h
        · rw [if_neg h3] at h ⊢
          by_cases h4 : (weeklyFires now (load_state file) && !post Cat.weekly) = true
          · rw [if_pos h4] at h; simp at h
          · rw [if_neg h4] at h ⊢
            simp only [Except.ok.injEq] at h
            subst h
            exact ⟨rfl, by simp [passParts, List.append_assoc]⟩

/-- When every handoff succeeds and filtering succeeds, the pass runs
to completion with the fired handoffs and the updated state. -/
theorem runPass_success {now : Int} {events : List RawEvent} {file : StateFile}
    {post : Cat → Bool} {l : List (RawEvent × Int)}
    (hc : collectHigh (dayStart now) (dayStart now + 86400) events = .ok l)
    (hp : ∀ c, post c = true) :
    runPass now events file post =
      { deliveries := passParts now (load_state file),
        result := .ok (passFinal now (load_state file)) } := by
  simp only [runPass, hc, hp, Bool.not_true, Bool.and_false, if_false]
  simp [passParts, passFinal, List.append_assoc]

/-- Whatever happens during a pass, every handoff that reached the
Notifier is a fired category with the key the pass resolved. -/
theorem mem_deliveries {now : Int} {events : List RawEvent} {file : StateFile}
    {post : Cat → Bool} {c : Cat} {k : Key}
    (h : (c, k) ∈ (runPass now events file post).deliveries) :
    catFires c now (load_state file) = true ∧ k = catKey c now := by
  rcases hc : collectHigh (dayStart now) (dayStart now + 86400) events with e | l <;>
    simp only [runPass, hc] at h
  · simp at h
  · by_cases h1 : (dailyFires now (load_state file) && !post Cat.daily) = true
    · rw [if_pos h1] at h; simp at h
    · rw [if_neg h1] at h
      by_cases h2 : (reminderFires now (load_state file) && !post Cat.reminder) = true
      · rw [if_pos h2] at h
        simp only at h
        obtain ⟨hb, rfl, rfl⟩ := mem_fireOpt h
        exact ⟨hb, rfl⟩
      · rw [if_neg h2] at h
        by_cases h3 : (resultsFires now (load_state file) && !post Cat.results) = true
        · rw [if_pos h3] at h
          simp only at h
          rcases List.mem_append.1 h with h | h
          · obtain ⟨hb, rfl, rfl⟩ := mem_fireOpt h
            exact ⟨hb, rfl⟩
          · obtain ⟨hb, rfl, rfl⟩ := mem_fireOpt h
            exact ⟨hb, rfl⟩
        · rw [if_neg h3] at h
          by_cases h4 : (weeklyFires now (load_state file) && !post Cat.weekly) = true
          · rw [if_pos h4] at h
            simp only at h
            rcases List.mem_append.1 h with h | h
            · rcases List.mem_append.1 h with h | h
              · obtain ⟨hb, rfl, rfl⟩ := mem_fireOpt h
                exact ⟨hb, rfl⟩
              · obtain ⟨hb, rfl, rfl⟩ := mem_fireOpt h
                exact ⟨hb, rfl⟩
            · obtain ⟨hb, rfl, rfl⟩ := mem_fireOpt h
              exact ⟨hb, rfl⟩
          · rw [if_neg h4] at h
            simp only at h
            rcases List.mem_append.1 h with h | h
            · rcases List.mem_append.1 h with h | h
              · rcases List.mem_append.1 h with h | h
                · obtain ⟨hb, rfl, rfl⟩ := mem_fireOpt h
                  exact ⟨hb, rfl⟩
                · obtain ⟨hb, rfl, rfl⟩ := mem_fireOpt h
                  exact ⟨hb, rfl⟩
              · obtain ⟨hb, rfl, rfl⟩ := mem_fireOpt h
                exact ⟨hb, rfl⟩
            · obtain ⟨hb, rfl, rfl⟩ := mem_fireOpt h
              exact ⟨hb, rfl⟩

/-- Membership in the fired parts of a completed pass. -/
theorem mem_passParts {now : Int} {st : State} {c : Cat} {k : Key}
    (h : (c, k) ∈ passParts now st) :
    catFires c now st = true ∧ k = catKey c now := by
  simp only [passParts] at h
  rcases List.mem_append.1 h with h | h
  · rcases List.mem_append.1 h with h | h
    · rcases List.mem_append.1 h with h | h
      · obtain ⟨hb, rfl, rfl⟩ := mem_fireOpt h
        exact ⟨hb, rfl⟩
      · obtain ⟨hb, rfl, rfl⟩ := mem_fireOpt h
        exact ⟨hb, rfl⟩
    · obtain ⟨hb, rfl, rfl⟩ := mem_fireOpt h
      exact ⟨hb, rfl⟩
  · obtain ⟨hb, rfl, rfl⟩ := mem_fireOpt h
    exact ⟨hb, rfl⟩

/-- A fired category's resolved key is in the fired parts. -/
theorem catKey_mem_passParts {now : Int} {st : State} {c : Cat}
    (h : catFires c now st = true) :
    (c, catKey c now) ∈ passParts now st := by
  cases c <;>
    simp only [passParts, catFires, catKey, catOccIndex, keyOf, List.mem_append] at h ⊢
  · exact Or.inl (Or.inl (Or.inl (by rw [if_pos h]; exact List.mem_singleton.2 rfl)))
  · exact Or.inl (Or.inl (Or.inr (by rw [if_pos h]; exact List.mem_singleton.2 rfl)))
  · exact Or.inl (Or.inr (by rw [if_pos h]; exact List.mem_singleton.2 rfl))
  · exact Or.inr (by rw [if_pos h]; exact List.mem_singleton.2 rfl)

/-! ## Sorting lemmas -/

theorem perm_insertByDt (x : RawEvent × Int) (l : List (RawEvent × Int)) :
    List.Perm (insertByDt x l) (x :: l) := by
  induction l with
  | nil => exact List.Perm.refl _
  | cons y ys ih =>
    unfold insertByDt
    split
    · exact List.Perm.refl _
    · exact (ih.cons y).trans (List.Perm.swap x y ys)

theorem mem_insertByDt {x z : RawEvent × Int} {l : List (RawEvent × Int)} :
    z ∈ insertByDt x l ↔ z = x ∨ z ∈ l := by
  rw [(perm_insertByDt x l).mem_iff, List.mem_cons]

theorem pairwise_insertByDt {x : RawEvent × Int} :
    ∀ {l : List (RawEvent × Int)},
      List.Pairwise (fun a b => a.2 ≤ b.2) l →
      List.Pairwise (fun a b => a.2 ≤ b.2) (insertByDt x l)
  | [], _ => by simp [insertByDt]
  | y :: ys, h => by
    rw [List.pairwise_cons] at h
    obtain ⟨hy, hys⟩ := h
    unfold insertByDt
    split
    · rename_i hxy
      rw [List.pairwise_cons]
      refine ⟨?_, List.pairwise_cons.2 ⟨hy, hys⟩⟩
      intro z hz
      rcases List.mem_cons.1 hz with rfl | hz
      · exact hxy
      · exact le_trans hxy (hy z hz)
    · rename_i hxy
      rw [List.pairwise_cons]
      refine ⟨?_, pairwise_insertByDt hys⟩
      intro z hz
      rcases mem_insertByDt.1 hz with rfl | hz
      · omega
      · exact hy z hz

theorem perm_sortByDt : ∀ l : List (RawEvent × Int), List.Perm (sortByDt l) l
  | [] => List.Perm.refl _
  | x :: xs => (perm_insertByDt x (sortByDt xs)).trans ((perm_sortByDt xs).cons x)

theorem pairwise_sortByDt :
    ∀ l : List (RawEvent × Int), List.Pairwise (fun a b => a.2 ≤ b.2) (sortByDt l)
  | [] => List.Pairwise.nil
  | x :: xs => @pairwise_insertByDt x (sortByDt xs) (pairwise_sortByDt xs)

theorem filter_insertByDt_pos {x : RawEvent × Int} {t : Int} (hx : x.2 = t) :
    ∀ l : List (RawEvent × Int),
      (insertByDt x l).filter (fun a => decide (a.2 = t)) =
        x :: l.filter (fun a => decide (a.2 = t))
  | [] => by simp [insertByDt, hx]
  | y :: ys => by
    unfold insertByDt
    split
    · rename_i hxy
      simp only [List.filter_cons, decide_eq_true_eq, if_pos hx]
    · rename_i hxy
      have hy : ¬ (y.2 = t) := by omega
      simp only [List.filter_cons, decide_eq_true_eq, if_neg hy]
      exact filter_insertByDt_pos hx ys

theorem filter_insertByDt_neg {x : RawEvent × Int} {t : Int} (hx : ¬ x.2 = t) :
    ∀ l : List (RawEvent × Int),
      (insertByDt x l).filter (fun a => decide (a.2 = t)) =
        l.filter (fun a => decide (a.2 = t))
  | [] => by simp [insertByDt, hx]
  | y :: ys => by
    unfold insertByDt
    split
    · rename_i hxy
      simp only [List.filter_cons, decide_eq_true_eq, if_neg hx]
    · rename_i hxy
      by_cases hy : y.2 = t
      · simp only [List.filter_cons, decide_eq_true_eq, if_pos hy]
        exact congrArg (fun l => y :: l) (filter_insertByDt_neg hx ys)
      · simp only [List.filter_cons, decide_eq_true_eq, if_neg hy]
        exact filter_insertByDt_neg hx ys

theorem filter_sortByDt (t : Int) :
    ∀ l : List (RawEvent × Int),
      (sortByDt l).filter (fun a => decide (a.2 = t)) =
        l.filter (fun a => decide (a.2 = t))
  | [] => rfl
  | x :: xs => by
    by_cases hx : x.2 = t
    · rw [sortByDt, filter_insertByDt_pos hx, filter_sortByDt t xs, List.filter_cons]
      simp [hx]
    · rw [sortByDt, filter_insertByDt_neg hx, filter_sortByDt t xs, List.filter_cons]
      simp [hx]

/-! ## Chunking lemmas -/

theorem joinBlocks_append (g1 g2 : List String) :
    joinBlocks (g1 ++ g2) = joinBlocks g1 ++ joinBlocks g2 := by
  induction g1 with
  | nil => simp [joinBlocks]
  | cons b bs ih =>
    simp only [List.cons_append, joinBlocks, List.append_eq, ih, String.append_assoc]

theorem append_joinBlocks_snoc (h : String) (g : List String) (b : String) :
    h ++ joinBlocks (g ++ [b]) = (h ++ joinBlocks g) ++ "\n\n" ++ b := by
  rw [joinBlocks_append]
  simp [joinBlocks, String.append_assoc, String.append_empty]

/-- Structure of the chunking loop: starting from an open message that
already holds the blocks `g0`, the loop emits a first message
extending `g0` with some prefix of the remaining blocks, then one
message per further group, and the groups concatenate to exactly the
remaining blocks. -/
theorem chunkGo_spec (header : String) :
    ∀ (bs g0 : List String),
      ∃ (g1 : List String) (gss : List (List String)),
        chunkGo header (header ++ joinBlocks g0) bs =
          (header ++ joinBlocks (g0 ++ g1) ++ chunkFooter)
            :: gss.map (fun g => header ++ joinBlocks g ++ chunkFooter) ∧
        g1 ++ gss.flatten = bs
  | [], g0 => by
    refine ⟨[], [], ?_, rfl⟩
    simp [chunkGo]
  | b :: bs, g0 => by
    unfold chunkGo
    split
    · rename_i hover
      have e : header ++ "\n\n" ++ b = header ++ joinBlocks [b] := by
        simp [joinBlocks, String.append_assoc, String.append_empty]
      obtain ⟨g1, gss, hEq, hJoin⟩ := chunkGo_spec header bs [b]
      refine ⟨[], ([b] ++ g1) :: gss, ?_, ?_⟩
      · rw [e, hEq]
        simp
      · simp [hJoin]
    · rename_i hover
      have e : (header ++ joinBlocks g0) ++ "\n\n" ++ b = header ++ joinBlocks (g0 ++ [b]) :=
        (append_joinBlocks_snoc header g0 b).symm
      obtain ⟨g1, gss, hEq, hJoin⟩ := chunkGo_spec header bs (g0 ++ [b])
      refine ⟨b :: g1, gss, ?_, ?_⟩
      · rw [e, hEq]
        simp [List.append_assoc]
      · simp [hJoin]

/-- Length bound for the chunking loop: if the open message still fits
with the footer, and every remaining block fits in a fresh message,
every emitted message fits. -/
theorem chunkGo_len (header : String) :
    ∀ (bs : List String) (current : String),
      (current ++ chunkFooter).length ≤ DISCORD_MAX_LEN →
      (∀ b ∈ bs, (header ++ "\n\n" ++ b ++ chunkFooter).length ≤ DISCORD_MAX_LEN) →
      ∀ m ∈ chunkGo header current bs, m.length ≤ DISCORD_MAX_LEN
  | [], current => by
    intro hcur _ m hm
    simp only [chunkGo, List.mem_singleton] at hm
    rw [hm]; exact hcur
  | b :: bs, current => by
    intro hcur hblocks m hm
    unfold chunkGo at hm
    split at hm
    · rename_i hover
      rcases List.mem_cons.1 hm with rfl | hm
      · exact hcur
      · refine chunkGo_len header bs (header ++ "\n\n" ++ b) ?_ ?_ m hm
        · exact hblocks b (List.mem_cons_self b bs)
        · intro x hx; exact hblocks x (List.mem_cons_of_mem b hx)
    · rename_i hover
      refine chunkGo_len header bs (current ++ "\n\n" ++ b) ?_ ?_ m hm
      · omega
      · intro x hx; exact hblocks x (List.mem_cons_of_mem b hx)

/-! ## Claim theorems -/

/-- C1: For every category (daily, reminder, results, weekly), a pass
delivers an occurrence iff the pass's `now` lies inside the half-open
window `[anchor, anchor + tolerance)` of that occurrence and the
occurrence's key is absent from the ledger's set for that category
(assuming filtering succeeds and every Notifier handoff succeeds);
moreover the anchor itself lies in the window while `anchor - 1`
(one second early) and `anchor + tolerance` (the window end) do not. -/
theorem delivery_iff_window_and_unsent (now : Int) (events : List RawEvent)
    (file : StateFile) (post : Cat → Bool) (l : List (RawEvent × Int))
    (hcol : collectHigh (dayStart now) (dayStart now + 86400) events = .ok l)
    (hpost : ∀ c, post c = true) :
    (∀ (c : Cat) (occ : Int),
      (c, keyOf c occ) ∈ (runPass now events file post).deliveries ↔
        (inWindow c occ now ∧ keyOf c occ ∉ ledgerOf (load_state file) c)) ∧
    (∀ (c : Cat) (occ : Int),
      inWindow c occ (anchorOf c occ) ∧
      ¬ inWindow c occ (anchorOf c occ - 1) ∧
      ¬ inWindow c occ (anchorOf c occ + toleranceSecs c)) := by
  constructor
  · intro c occ
    constructor
    · intro h
      obtain ⟨hf, hk⟩ := mem_deliveries h
      have hocc : occ = catOccIndex c now := keyOf_inj c hk
      obtain ⟨hw, hm⟩ := (catFires_iff c now (load_state file)).1 hf
      subst hocc
      exact ⟨hw, hm⟩
    · rintro ⟨hw, hm⟩
      have hocc : catOccIndex c now = occ := occIndex_of_inWindow hw
      have hf : catFires c now (load_state file) = true := by
        apply (catFires_iff c now (load_state file)).2
        show inWindow c (catOccIndex c now) now ∧
          keyOf c (catOccIndex c now) ∉ ledgerOf (load_state file) c
        rw [hocc]
        exact ⟨hw, hm⟩
      have hmem := catKey_mem_passParts hf
      have hk : catKey c now = keyOf c occ := by
        show keyOf c (catOccIndex c now) = keyOf c occ
        rw [hocc]
      rw [hk] at hmem
      rw [runPass_success hcol hpost]
      exact hmem
  · intro c occ
    refine ⟨?_, ?_, ?_⟩ <;> cases c <;>
      simp only [inWindow, anchorOf, toleranceSecs, DAILY_AFTER_MINUTES,
        REMINDER_START_HOUR, REMINDER_START_MINUTE, REMINDER_WINDOW_MINUTES,
        RESULTS_START_HOUR, RESULTS_START_MINUTE, RESULTS_WINDOW_MINUTES,
        WEEKLY_SUNDAY_START_HOUR, WEEKLY_SUNDAY_START_MINUTE,
        WEEKLY_SUNDAY_WINDOW_MINUTES, not_and, not_lt] <;> omega

theorem delivery_iff_window_and_unsent_witness :
    ((Cat.daily, keyOf Cat.daily 3) ∈
        (runPass 297000 [] StateFile.unreadable (fun _ => true)).deliveries ↔
      (inWindow Cat.daily 3 297000 ∧
        keyOf Cat.daily 3 ∉ ledgerOf (load_state StateFile.unreadable) Cat.daily)) ∧
    (inWindow Cat.weekly 0 (anchorOf Cat.weekly 0) ∧
      ¬ inWindow Cat.weekly 0 (anchorOf Cat.weekly 0 - 1) ∧
      ¬ inWindow Cat.weekly 0 (anchorOf Cat.weekly 0 + toleranceSecs Cat.weekly)) :=
  ⟨(delivery_iff_window_and_unsent 297000 [] StateFile.unreadable (fun _ => true) []
      rfl (fun _ => rfl)).1 Cat.daily 3,
   (delivery_iff_window_and_unsent 297000 [] StateFile.unreadable (fun _ => true) []
      rfl (fun _ => rfl)).2 Cat.weekly 0⟩

/-- C6: once `now` has reached or passed the end of an occurrence's
window, no pass at such a `now` ever delivers that occurrence, for any
events, ledger file or Notifier outcomes. -/
theorem missed_window_never_delivered (c : Cat) (occ now : Int)
    (events : List RawEvent) (file : StateFile) (post : Cat → Bool)
    (h : anchorOf c occ + toleranceSecs c ≤ now) :
    (c, keyOf c occ) ∉ (runPass now events file post).deliveries := by
  intro hmem
  obtain ⟨hf, hk⟩ := mem_deliveries hmem
  have hocc : occ = catOccIndex c now := keyOf_inj c hk
  obtain ⟨hw, _⟩ := (catFires_iff c now (load_state file)).1 hf
  rw [← hocc] at hw
  obtain ⟨h1, h2⟩ := hw
  omega

theorem missed_window_never_delivered_witness :
    (Cat.daily, keyOf Cat.daily 0) ∉
      (runPass 90000 [] StateFile.unreadable (fun _ => true)).deliveries :=
  missed_window_never_delivered Cat.daily 0 90000 [] StateFile.unreadable
    (fun _ => true) (by decide)

/-- C7: whenever `now` lies inside the results window of day `d`
(23:00 of `d` to 09:00 of `d + 1`), the pass resolves the results
occurrence to day `d` - the calendar day of the window's start
instant, not of `now` - and the reported events are those of day `d`;
in particular a pass between 00:00 and 09:00 uses the previous day's
key and reports the previous day's events. -/
theorem results_resolved_by_window_start (now d : Int)
    (h : inWindow Cat.results d now) :
    resultsKeyIndex now = d ∧
    dayIndex (resultsStart now) = d ∧
    resultsDayStart now = 86400 * d ∧
    ∀ events, resultsEvents now events =
      collectHigh (86400 * d) (86400 * d + 86400) events := by
  have h1 : resultsKeyIndex now = d := occIndex_of_inWindow h
  refine ⟨h1, ?_, ?_, ?_⟩
  · rw [resultsStart, h1]
    simp only [dayIndex, RESULTS_START_HOUR, RESULTS_START_MINUTE]
    omega
  · rw [resultsDayStart, h1]
  · intro events
    rw [resultsEvents, resultsDayStart, h1]

theorem results_resolved_by_window_start_witness :
    resultsKeyIndex 450000 = 4 ∧
    dayIndex (resultsStart 450000) = 4 ∧
    resultsDayStart 450000 = 86400 * 4 ∧
    resultsEvents 450000 [] = collectHigh (86400 * 4) (86400 * 4 + 86400) [] := by
  have h := results_resolved_by_window_start 450000 4 (by decide)
  exact ⟨h.1, h.2.1, h.2.2.1, h.2.2.2 []⟩

/-- C5: after a pass that delivered the daily category for a date and
reached persistence, the ledger round-trips through `save_state` and
`load_state`, and a new pass on the same date never delivers the daily
category again. -/
theorem daily_not_redelivered_after_reload (now1 now2 : Int)
    (ev1 ev2 : List RawEvent) (file : StateFile) (p1 p2 : Cat → Bool)
    (st1 : State) (k : Key)
    (hday : dayIndex now2 = dayIndex now1)
    (hok : (runPass now1 ev1 file p1).result = .ok st1)
    (hdel : (Cat.daily, Key.date (dayIndex now1)) ∈ (runPass now1 ev1 file p1).deliveries) :
    load_state (save_state st1) = st1 ∧
    (Cat.daily, k) ∉ (runPass now2 ev2 (save_state st1) p2).deliveries := by
  have hrt : load_state (save_state st1) = st1 := by cases st1; rfl
  refine ⟨hrt, ?_⟩
  intro hmem
  obtain ⟨hf2, hk2⟩ := mem_deliveries hmem
  rw [hrt] at hf2
  have hnotin : Key.date (dayIndex now2) ∉ st1.daily_sent :=
    ((catFires_iff Cat.daily now2 st1).1 hf2).2
  obtain ⟨hst, hdeliv⟩ := runPass_ok_spec hok
  rw [hdeliv] at hdel
  obtain ⟨hf1, _⟩ := mem_passParts hdel
  have hf1d : dailyFires now1 (load_state file) = true := hf1
  have hin : Key.date (dayIndex now1) ∈ st1.daily_sent := by
    rw [hst]
    simp only [passFinal]
    rw [if_pos hf1d]
    exact self_mem_addKey _ _
  rw [hday] at hnotin
  exact hnotin hin

theorem daily_not_redelivered_after_reload_witness :
    load_state (save_state ⟨[Key.reminder 3], [Key.date 3], [], []⟩) =
      ⟨[Key.reminder 3], [Key.date 3], [], []⟩ ∧
    (Cat.daily, Key.date 3) ∉
      (runPass 297060 []
        (save_state ⟨[Key.reminder 3], [Key.date 3], [], []⟩)
        (fun _ => true)).deliveries :=
  daily_not_redelivered_after_reload 297000 297060 [] []
    StateFile.unreadable (fun _ => true) (fun _ => true)
    ⟨[Key.reminder 3], [Key.date 3], [], []⟩ (Key.date 3)
    (by decide) (by decide) (by decide)

/-- C10: a pass that reaches persistence only ever adds occurrence
keys - each persisted category set contains the loaded one - and
`load_state` fills every missing entry of a partial state object with
the empty set. -/
theorem ledger_only_grows (now : Int) (events : List RawEvent)
    (file : StateFile) (post : Cat → Bool) (st1 : State)
    (hok : (runPass now events file post).result = .ok st1) :
    ((load_state file).reminded ⊆ st1.reminded ∧
     (load_state file).daily_sent ⊆ st1.daily_sent ∧
     (load_state file).results_sent ⊆ st1.results_sent ∧
     (load_state file).weekly_sent ⊆ st1.weekly_sent) ∧
    (∀ r d rs w, load_state (StateFile.obj r d rs w) =
      { reminded := r.getD [], daily_sent := d.getD [],
        results_sent := rs.getD [], weekly_sent := w.getD [] }) := by
  obtain ⟨hst, _⟩ := runPass_ok_spec hok
  subst hst
  refine ⟨⟨?_, ?_, ?_, ?_⟩, fun r d rs w => rfl⟩ <;>
    simp only [passFinal] <;> split
  · exact subset_addKey _ _
  · exact fun x hx => hx
  · exact subset_addKey _ _
  · exact fun x hx => hx
  · exact subset_addKey _ _
  · exact fun x hx => hx
  · exact subset_addKey _ _
  · exact fun x hx => hx

theorem ledger_only_grows_witness :
    ((load_state StateFile.unreadable).reminded ⊆ [Key.reminder 3] ∧
     (load_state StateFile.unreadable).daily_sent ⊆ [Key.date 3] ∧
     (load_state StateFile.unreadable).results_sent ⊆ [] ∧
     (load_state StateFile.unreadable).weekly_sent ⊆ []) ∧
    load_state (StateFile.obj none (some [Key.date 3]) none none) =
      { reminded := (none : Option (List Key)).getD [],
        daily_sent := (some [Key.date 3]).getD [],
        results_sent := (none : Option (List Key)).getD [],
        weekly_sent := (none : Option (List Key)).getD [] } := by
  have h := ledger_only_grows 297000 [] StateFile.unreadable (fun _ => true)
    ⟨[Key.reminder 3], [Key.date 3], [], []⟩ (by decide)
  exact ⟨h.1, h.2 none (some [Key.date 3]) none none⟩

/-- C2 (amended): when a category's Notifier handoff fails, the raised
error aborts the pass at that category: its key is not marked, the
remaining categories are not evaluated, and the pass never reaches
`save_state`, so even keys of categories delivered earlier in the same
pass are not persisted.  Shown here for a failing reminder handoff
after the daily handoff succeeded. -/
theorem delivery_failure_aborts_pass (now : Int) (events : List RawEvent)
    (file : StateFile) (post : Cat → Bool) (l : List (RawEvent × Int))
    (hcol : collectHigh (dayStart now) (dayStart now + 86400) events = .ok l)
    (hpostd : post Cat.daily = true)
    (hrfire : reminderFires now (load_state file) = true)
    (hrfail : post Cat.reminder = false) :
    (runPass now events file post).result = .error (.deliveryFailed Cat.reminder) ∧
    ∀ k, (Cat.results, k) ∉ (runPass now events file post).deliveries ∧
         (Cat.weekly, k) ∉ (runPass now events file post).deliveries := by
  have hd : ¬ ((dailyFires now (load_state file) && !post Cat.daily) = true) := by
    rw [hpostd]; simp
  have hcond : (reminderFires now (load_state file) && !post Cat.reminder) = true := by
    rw [hrfire, hrfail]; rfl
  refine ⟨?_, ?_⟩
  · simp only [runPass, hcol]
    rw [if_neg hd, if_pos hcond]
  · intro k
    constructor <;> intro hmem <;> simp only [runPass, hcol] at hmem <;>
      rw [if_neg hd, if_pos hcond] at hmem <;> simp only at hmem
    · obtain ⟨_, hc, _⟩ := mem_fireOpt hmem
      exact Cat.noConfusion hc
    · obtain ⟨_, hc, _⟩ := mem_fireOpt hmem
      exact Cat.noConfusion hc

theorem delivery_failure_aborts_pass_witness :
    (runPass 297000 [] StateFile.unreadable
        (fun c => decide (c = Cat.daily))).result =
      .error (.deliveryFailed Cat.reminder) ∧
    ∀ k, (Cat.results, k) ∉
        (runPass 297000 [] StateFile.unreadable
          (fun c => decide (c = Cat.daily))).deliveries ∧
      (Cat.weekly, k) ∉
        (runPass 297000 [] StateFile.unreadable
          (fun c => decide (c = Cat.daily))).deliveries :=
  delivery_failure_aborts_pass 297000 [] StateFile.unreadable
    (fun c => decide (c = Cat.daily)) [] rfl (by decide) (by decide) (by decide)

/-- C2 counterexample: a pass in which the daily handoff succeeds and
the reminder handoff fails hands the daily message to the Notifier but
aborts with an uncaught error: the results and weekly categories are
never evaluated and no state reaches `save_state`, so the daily key -
although delivered - is not persisted; the claim that the remaining
categories are still evaluated and earlier keys still persisted is
false. -/
theorem delivery_failure_counterexample :
    runPass 297000 [] StateFile.unreadable (fun c => decide (c = Cat.daily)) =
      { deliveries := [(Cat.daily, Key.date 3)],
        result := .error (.deliveryFailed Cat.reminder) } := by
  decide

/-- C3 (amended): a missing or empty timestamp string silently drops
the record (`parse_dt_local` returns `None`), but a present
non-ISO-8601 timestamp raises `ValueError`, which propagates out of
the HIGH-impact filter and aborts the whole pass with nothing
delivered. -/
theorem malformed_timestamp_raises (now : Int) (events : List RawEvent)
    (file : StateFile) (post : Cat → Bool) :
    (∀ ev : RawEvent, dtStrOf ev = none → parse_dt_local ev = .ok none) ∧
    (∀ (ev : RawEvent) (s : String),
      dtStrOf ev = some s → s.isEmpty = true → parse_dt_local ev = .ok none) ∧
    (∀ (ev : RawEvent) (rest : List RawEvent) (ts te : Int) (s : String),
      normalize_impact ev = "HIGH" → parse_dt_local ev = .error s →
      collectHigh ts te (ev :: rest) = .error s) ∧
    (∀ e, collectHigh (dayStart now) (dayStart now + 86400) events = .error e →
      runPass now events file post =
        { deliveries := [], result := .error (.malformedTimestamp e) }) := by
  refine ⟨?_, ?_, ?_, ?_⟩
  · intro ev h; simp [parse_dt_local, h]
  · intro ev s h hs; simp [parse_dt_local, h, hs]
  · intro ev rest ts te s hi hp
    simp [collectHigh, hi, hp]
  · intro e h
    simp only [runPass, h]

theorem malformed_timestamp_raises_witness :
    collectHigh 0 86400
        [[("impact", "HIGH"), ("datetime", "nope")]] = .error "nope" :=
  (malformed_timestamp_raises 0 [] StateFile.unreadable (fun _ => true)).2.2.1
    [("impact", "HIGH"), ("datetime", "nope")] [] 0 86400 "nope"
    (by decide) (by decide)

/-- C3 counterexample: a record whose timestamp string is present but
not ISO-8601 makes `parse_dt_local` raise (the `ValueError` from
`datetime.fromisoformat` is uncaught), and a pass over a HIGH-impact
record with such a timestamp aborts instead of dropping the record;
the claim that normalization never raises is false. -/
theorem malformed_timestamp_counterexample :
    parse_dt_local [("impact", "HIGH"), ("datetime", "not-a-timestamp")] =
      .error "not-a-timestamp" ∧
    runPass 297000 [[("impact", "HIGH"), ("datetime", "not-a-timestamp")]]
        StateFile.unreadable (fun _ => true) =
      { deliveries := [],
        result := .error (.malformedTimestamp "not-a-timestamp") } := by
  constructor
  · decide
  · decide

/-- C4 (amended): chunking always reproduces the original ordered block
sequence exactly once across the emitted messages (each message is the
header, a consecutive group of blocks, and the footer), and no emitted
message exceeds `DISCORD_MAX_LEN` provided the header-plus-footer
frame and every single block fit within the limit; without that
proviso an oversized block yields an oversized message, since
`chunk_messages` never truncates. -/
theorem chunk_messages_spec (blocks : List String) (header : String) :
    (∃ gss : List (List String), gss ≠ [] ∧
      chunk_messages blocks header =
        gss.map (fun g => header ++ joinBlocks g ++ chunkFooter) ∧
      gss.flatten = blocks) ∧
    ((header ++ chunkFooter).length ≤ DISCORD_MAX_LEN →
     (∀ b ∈ blocks, (header ++ "\n\n" ++ b ++ chunkFooter).length ≤ DISCORD_MAX_LEN) →
     ∀ m ∈ chunk_messages blocks header, m.length ≤ DISCORD_MAX_LEN) := by
  constructor
  · obtain ⟨g1, gss, hEq, hJoin⟩ := chunkGo_spec header blocks []
    have e : header ++ joinBlocks [] = header := by simp [joinBlocks]
    rw [e] at hEq
    simp only [List.nil_append] at hEq hJoin
    refine ⟨g1 :: gss, by simp, ?_, ?_⟩
    · show chunkGo header header blocks = _
      rw [hEq]
      simp
    · simp [hJoin]
  · intro hhead hblocks
    exact chunkGo_len header blocks header hhead hblocks

theorem chunk_messages_spec_witness :
    ("H\n\na" ++ chunkFooter).length ≤ DISCORD_MAX_LEN :=
  (chunk_messages_spec ["a"] "H").2 (by decide) (by decide)
    ("H\n\na" ++ chunkFooter) (by decide)

/-- C4 counterexample: a single block of 2001 characters produces a
message longer than `DISCORD_MAX_LEN = 2000`, so the claim that no
produced message ever exceeds the maximum length is false
(`chunk_messages` does not truncate; only `post_discord` later slices
to 2000, destroying content). -/
theorem chunk_messages_counterexample :
    DISCORD_MAX_LEN < ((chunk_messages [bigBlock] "H").getLastD "").length := by
  have hlen : bigBlock.length = 2001 := by
    show (List.replicate 2001 'a').length = 2001
    exact List.length_replicate 2001 'a'
  have hcond : DISCORD_MAX_LEN < ("H" ++ "\n\n" ++ bigBlock ++ chunkFooter).length := by
    simp only [String.length_append, hlen]
    decide
  have hmsgs : chunk_messages [bigBlock] "H" =
      ["H" ++ chunkFooter, ("H" ++ "\n\n" ++ bigBlock) ++ chunkFooter] := by
    show chunkGo "H" "H" [bigBlock] = _
    unfold chunkGo
    rw [if_pos hcond]
    rfl
  rw [hmsgs]
  show DISCORD_MAX_LEN < (("H" ++ "\n\n" ++ bigBlock) ++ chunkFooter).length
  simp only [String.length_append, hlen]
  decide

/-- C8 (amended): the timestamp is selected by the two-alias chain
`datetime|date` with first-present-non-empty semantics, and the impact
is read from the single field `impact` (then uppercased); but title
and actual come only from the single fields `title` and `actual` - a
record carrying only alias fields (`event`/`name`, or
`result`/`value`/`outcome`) gets the fallback value. -/
theorem field_extraction_single_alias (ev : RawEvent) :
    parse_dt_local ev = parseDtChain ev ∧
    normalize_impact ev = pyUpper ((firstNonEmpty ["impact"] ev).getD "") ∧
    (getField ev "title" = none → titleOf ev = "Onbekend event") ∧
    (getField ev "actual" = none → actualOf ev = "–") := by
  refine ⟨?_, ?_, ?_, ?_⟩
  · rcases h1 : getField ev "datetime" with _ | s1
    · rcases h2 : getField ev "date" with _ | s2
      · simp [parse_dt_local, parseDtChain, dtStrOf, pyOr, firstNonEmpty, h1, h2]
      · by_cases he : s2.isEmpty <;>
          simp [parse_dt_local, parseDtChain, dtStrOf, pyOr, firstNonEmpty, h1, h2, he]
    · by_cases he : s1.isEmpty
      · rcases h2 : getField ev "date" with _ | s2
        · simp [parse_dt_local, parseDtChain, dtStrOf, pyOr, firstNonEmpty, h1, h2, he]
        · by_cases he2 : s2.isEmpty <;>
            simp [parse_dt_local, parseDtChain, dtStrOf, pyOr, firstNonEmpty,
              h1, h2, he, he2]
      · simp [parse_dt_local, parseDtChain, dtStrOf, pyOr, firstNonEmpty, h1, he]
  · rcases h : getField ev "impact" with _ | s
    · simp [normalize_impact, firstNonEmpty, h]
    · by_cases he : s.isEmpty
      · have hs : s = "" := (String.isEmpty_iff s).mp he
        subst hs
        simp only [normalize_impact, firstNonEmpty, h]
        rfl
      · simp [normalize_impact, firstNonEmpty, h, he]
  · intro h; simp [titleOf, h]
  · intro h; simp [actualOf, h]

theorem field_extraction_single_alias_witness :
    titleOf [("importance", "high")] = "Onbekend event" ∧
    actualOf [("importance", "high")] = "–" :=
  ⟨(field_extraction_single_alias [("importance", "high")]).2.2.1 (by decide),
   (field_extraction_single_alias [("importance", "high")]).2.2.2 (by decide)⟩

/-- C8 counterexample: a record carrying the impact only under the
alias `importance` normalizes to the empty impact (the claimed chain
would produce HIGH), and records carrying the title or actual only
under their claimed aliases get the fallback values instead. -/
theorem field_extraction_counterexample :
    normalize_impact [("importance", "high")] = "" ∧
    pyUpper ((firstNonEmpty ["impact", "importance", "level"]
      [("importance", "high")]).getD "") = "HIGH" ∧
    titleOf [("event", "CPI Release"), ("name", "CPI Release")] = "Onbekend event" ∧
    actualOf [("result", "3.1"), ("value", "3.1"), ("outcome", "3.1")] = "–" := by
  decide

/-- C9 (amended): the HIGH-impact digest lists (today's and the
upcoming week's) are sorted ascending by parsed timestamp by a stable
sort: the output is a permutation of the filtered feed-order list, and
events sharing a timestamp keep their feed order - ties are not broken
by title. -/
theorem digest_sort_stable (now : Int) (events : List RawEvent)
    (l1 l2 : List (RawEvent × Int))
    (h1 : todaysHigh now events = .ok l1)
    (h2 : upcomingHigh now events = .ok l2) :
    (List.Pairwise (fun a b : RawEvent × Int => a.2 ≤ b.2) l1 ∧
      ∃ l0, collectHigh (dayStart now) (dayStart now + 86400) events = .ok l0 ∧
        List.Perm l1 l0 ∧
        ∀ t, l1.filter (fun a => decide (a.2 = t)) =
          l0.filter (fun a => decide (a.2 = t))) ∧
    (List.Pairwise (fun a b : RawEvent × Int => a.2 ≤ b.2) l2 ∧
      ∃ l0, collectHigh (dayStart now + 86400) (dayStart now + 86400 + 7 * 86400)
          events = .ok l0 ∧
        List.Perm l2 l0 ∧
        ∀ t, l2.filter (fun a => decide (a.2 = t)) =
          l0.filter (fun a => decide (a.2 = t))) := by
  constructor
  · rcases hc : collectHigh (dayStart now) (dayStart now + 86400) events with e | l0 <;>
      simp only [todaysHigh, hc, Except.map] at h1
    · exact absurd h1 (by simp)
    · simp only [Except.ok.injEq] at h1
      subst h1
      exact ⟨pairwise_sortByDt l0, l0, rfl, perm_sortByDt l0, fun t => filter_sortByDt t l0⟩
  · rcases hc : collectHigh (dayStart now + 86400) (dayStart now + 86400 + 7 * 86400)
        events with e | l0 <;>
      simp only [upcomingHigh, hc, Except.map] at h2
    · exact absurd h2 (by simp)
    · simp only [Except.ok.injEq] at h2
      subst h2
      exact ⟨pairwise_sortByDt l0, l0, rfl, perm_sortByDt l0, fun t => filter_sortByDt t l0⟩

theorem digest_sort_stable_witness :
    (List.Pairwise (fun a b : RawEvent × Int => a.2 ≤ b.2)
        [(evTieB, 63844884000), (evTieA, 63844884000)] ∧
      ∃ l0, collectHigh (dayStart 63844891200) (dayStart 63844891200 + 86400)
          [evTieB, evTieA] = .ok l0 ∧
        List.Perm [(evTieB, 63844884000), (evTieA, 63844884000)] l0 ∧
        ∀ t, [(evTieB, 63844884000), (evTieA, 63844884000)].filter
            (fun a => decide (a.2 = t)) =
          l0.filter (fun a => decide (a.2 = t))) ∧
    (List.Pairwise (fun a b : RawEvent × Int => a.2 ≤ b.2) ([] : List (RawEvent × Int)) ∧
      ∃ l0, collectHigh (dayStart 63844891200 + 86400)
          (dayStart 63844891200 + 86400 + 7 * 86400) [evTieB, evTieA] = .ok l0 ∧
        List.Perm ([] : List (RawEvent × Int)) l0 ∧
        ∀ t, ([] : List (RawEvent × Int)).filter (fun a => decide (a.2 = t)) =
          l0.filter (fun a => decide (a.2 = t))) :=
  digest_sort_stable 63844891200 [evTieB, evTieA]
    [(evTieB, 63844884000), (evTieA, 63844884000)] []
    (by decide) (by decide)

/-- C9 counterexample: two HIGH events at the same instant, fed with
titles in the order B then A, are emitted in feed order B then A - the
sort is stable on the timestamp only, so ties are not broken by lexical
title order (which would put A first). -/
theorem digest_sort_counterexample :
    todaysHigh 63844891200 [evTieB, evTieA] =
      .ok [(evTieB, 63844884000), (evTieA, 63844884000)] ∧
    todaysHigh 63844891200 [evTieB, evTieA] ≠
      .ok [(evTieA, 63844884000), (evTieB, 63844884000)] ∧
    titleOf evTieA = "A" ∧ titleOf evTieB = "B" := by
  refine ⟨by decide, by decide, by decide, by decide⟩

end CryptoCraft
